import Mathlib

/-!
Verification of the search & highlight engine of `app/api/documents.py`
(markdown-backend).

The embedding models Python strings as `String`/`List Char` (one Python
character per `Char`; `str.lower()` is character-wise `Char.toLower`, which is
adequate for the matching logic under scrutiny).  Nullable database text
columns are `Option String`.  The document store (an external collaborator in
the spec) is a record holding the table contents together with error-injection
fields for its count/page queries and its optional native full-text capability.

Recursions that jump over a matched region are written with an explicit fuel
argument (initialised to the list length, which the step bounds never exceed)
so that every definition evaluates inside the kernel; fuel-irrelevance lemmas
recover the natural unfolding equations.
-/

set_option maxRecDepth 10000

/-- Python `str.lower()` on a character list (character-wise case folding). -/
def lowerL (l : List Char) : List Char := l.map Char.toLower

/-- Substring test used to model Python `needle in hay` (highlight triggers)
and SQL `LIKE '%needle%'` (basic-mode filter): the needle occurs contiguously
somewhere in the haystack. -/
def isSubL : List Char → List Char → Bool
  | p, [] => p.isEmpty
  | p, c :: t => p.isPrefixOf (c :: t) || isSubL p t

/-- Python `hay.find(needle)`: index of the first occurrence of `needle` in
`hay`, with `none` for Python's `-1`. -/
def findSub (p : List Char) : List Char → Option Nat
  | [] => if p.isPrefixOf ([] : List Char) then some 0 else none
  | c :: t => if p.isPrefixOf (c :: t) then some 0 else (findSub p t).map (· + 1)

/-- Case-insensitive containment `term.lower() in text.lower()` (the trigger
condition of `_generate_highlights`, lines 51/54/57 of `documents.py`). -/
def containsCI (hay needle : String) : Bool := isSubL (lowerL needle.data) (lowerL hay.data)

/-- Position of the first case-insensitive occurrence: models both
`text.lower().find(term.lower())` and the position of the first match of the
`re.IGNORECASE`-compiled escaped literal (line 30 of `documents.py`). -/
def findCI (needle hay : List Char) : Option Nat := findSub (lowerL needle) (lowerL hay)

/-- Case-insensitive match of the literal `p` at the head of `l` (one position
of the `re.IGNORECASE` scan). -/
def isPrefixCI (p l : List Char) : Bool := (lowerL p).isPrefixOf (lowerL l)

/-- Opening highlight marker inserted by `pattern.sub` (line 46). -/
def mOpen : List Char := "<mark>".data

/-- Closing highlight marker inserted by `pattern.sub` (line 46). -/
def mClose : List Char := "</mark>".data

/-- Fuelled scan implementing `pattern.sub('<mark>\\g<0></mark>', snippet)`
(line 46 of `documents.py`): wherever the case-insensitive literal matches,
wrap the matched text (original case) in the markers and continue after it;
otherwise copy one character.  The fuel-exhausted and empty-pattern branches
are unreachable from `markSub` and `highlight_text` respectively. -/
def markSubGo : List Char → Nat → List Char → List Char
  | _, _, [] => []
  | _, 0, l => l
  | [], _, l => l
  | q :: ps, k + 1, c :: cs =>
    if isPrefixCI (q :: ps) (c :: cs) then
      mOpen ++ (c :: cs.take ps.length) ++ mClose ++ markSubGo (q :: ps) k (cs.drop ps.length)
    else
      c :: markSubGo (q :: ps) k cs

theorem markSubGo_irrel (p : List Char) :
    ∀ (k₁ : Nat) (k₂ : Nat) (l : List Char), l.length ≤ k₁ → l.length ≤ k₂ →
      markSubGo p k₁ l = markSubGo p k₂ l := by
  intro k₁
  induction k₁ with
  | zero =>
    intro k₂ l h1 _
    have : l = [] := List.eq_nil_of_length_eq_zero (Nat.le_zero.mp h1)
    subst this
    cases p <;> cases k₂ <;> simp [markSubGo]
  | succ a ih =>
    intro k₂ l h1 h2
    cases l with
    | nil => cases p <;> cases k₂ <;> simp [markSubGo]
    | cons c cs =>
      cases k₂ with
      | zero => simp at h2
      | succ b =>
        cases p with
        | nil => simp [markSubGo]
        | cons q ps =>
          simp only [markSubGo]
          by_cases hpref : isPrefixCI (q :: ps) (c :: cs)
          · simp only [hpref, if_true]
            have hd : (cs.drop ps.length).length ≤ a := by
              simp only [List.length_drop]
              simp only [List.length_cons] at h1
              omega
            have hd2 : (cs.drop ps.length).length ≤ b := by
              simp only [List.length_drop]
              simp only [List.length_cons] at h2
              omega
            rw [ih b _ hd hd2]
          · simp only [hpref, Bool.false_eq_true, if_false]
            have hc : cs.length ≤ a := by simp only [List.length_cons] at h1; omega
            have hc2 : cs.length ≤ b := by simp only [List.length_cons] at h2; omega
            rw [ih b _ hc hc2]

/-- Model of `pattern.sub('<mark>\\g<0></mark>', snippet)` (line 46). -/
def markSub (p l : List Char) : List Char := markSubGo p l.length l

theorem markSub_nil (p : List Char) : markSub p [] = [] := by
  cases p <;> rfl

theorem markSub_cons (q : Char) (ps : List Char) (c : Char) (cs : List Char) :
    markSub (q :: ps) (c :: cs) =
      if isPrefixCI (q :: ps) (c :: cs) then
        mOpen ++ (c :: cs.take ps.length) ++ mClose ++ markSub (q :: ps) (cs.drop ps.length)
      else
        c :: markSub (q :: ps) cs := by
  show markSubGo (q :: ps) (cs.length + 1) (c :: cs) = _
  simp only [markSubGo]
  by_cases hpref : isPrefixCI (q :: ps) (c :: cs)
  · simp only [hpref, if_true, markSub]
    rw [markSubGo_irrel (q :: ps) cs.length (cs.drop ps.length).length (cs.drop ps.length)
      (by simp only [List.length_drop]; omega) (Nat.le_refl _)]
  · simp only [hpref, Bool.false_eq_true, if_false, markSub]

/-- Embedding of `highlight_text(text, term, max_length)` (`documents.py`
lines 22–47).  Nat subtraction `s - 50` truncates at zero, matching
`max(0, match.start() - 50)`; the first case-insensitive match of the escaped
literal spans exactly `term.length` characters in the character model, so
`match.end()` is `s + term.length`. -/
def highlight_text (text term : String) (max_length : Nat := 200) : String :=
  if text.isEmpty || term.isEmpty then text
  else
    match findCI term.data text.data with
    | none =>
      if text.length > max_length then String.mk (text.data.take max_length) ++ "..." else text
    | some s =>
      let start := s - 50
      let stop := min text.length (s + term.length + 50)
      let snippet := (text.data.drop start).take (stop - start)
      let snippet := if start > 0 then "...".data ++ snippet else snippet
      let snippet := if stop < text.length then snippet ++ "...".data else snippet
      String.mk (markSub term.data snippet)

/-- Search-relevant projection of a `documents` table row (`app/models.py`).
Nullable text columns are `Option String`; timestamps are abstract `Nat`
instants (larger is later).  SQL boolean expressions over a NULL column are
modelled two-valued, with a NULL column never containing a keyword. -/
structure Document where
  id : Nat := 0
  title : String := ""
  excerpt : Option String := none
  content_text : Option String := none
  status : Nat := 0
  is_pinned : Bool := false
  updated_at : Nat := 0
  deleted_at : Option Nat := none
deriving Repr, DecidableEq

/-- Modelled from the spec: `SearchHighlight` (`app/schemas.py` is imported by
`documents.py` but its search classes are not among the sources) — optional
highlighted fragments for title, excerpt and content preview, each absent by
default. -/
structure SearchHighlight where
  title : Option String := none
  excerpt : Option String := none
  content_preview : Option String := none
deriving Repr, DecidableEq

/-- Embedding of `_generate_highlights(document, search_term)` (`documents.py`
lines 18–60).  Each field is highlighted only when it is truthy (present and
non-empty) and contains the search term case-insensitively; the per-field
`max_length` arguments 100/200/300 are passed through to `highlight_text`. -/
def generate_highlights (document : Document) (search_term : String) : SearchHighlight :=
  let t : Option String :=
    if !document.title.isEmpty && containsCI document.title search_term then
      some (highlight_text document.title search_term 100)
    else none
  let e : Option String :=
    match document.excerpt with
    | some ex =>
      if !ex.isEmpty && containsCI ex search_term then
        some (highlight_text ex search_term 200)
      else none
    | none => none
  let c : Option String :=
    match document.content_text with
    | some ct =>
      if !ct.isEmpty && containsCI ct search_term then
        some (highlight_text ct search_term 300)
      else none
    | none => none
  { title := t, excerpt := e, content_preview := c }

/-- Split a character list at its first `'>'`: `some (before, after)` with the
`'>'` itself dropped, or `none` when no `'>'` occurs. -/
def splitAtGt : List Char → Option (List Char × List Char)
  | [] => none
  | c :: cs =>
    if c = '>' then some ([], cs)
    else
      match splitAtGt cs with
      | some (pre, rest) => some (c :: pre, rest)
      | none => none

theorem splitAtGt_length : ∀ {cs pre rest : List Char},
    splitAtGt cs = some (pre, rest) → pre.length + 1 + rest.length = cs.length := by
  intro cs
  induction cs with
  | nil => intro pre rest h; simp [splitAtGt] at h
  | cons c cs ih =>
    intro pre rest h
    simp only [splitAtGt] at h
    by_cases hc : c = '>'
    · simp [hc] at h
      obtain ⟨h1, h2⟩ := h
      subst h1; subst h2; simp; omega
    · simp [hc] at h
      cases hs : splitAtGt cs with
      | none => rw [hs] at h; simp at h
      | some pr =>
        rw [hs] at h
        obtain ⟨pre', rest'⟩ := pr
        simp at h
        obtain ⟨h1, h2⟩ := h
        subst h1; subst h2
        have := ih hs
        simp only [List.length_cons]
        omega

/-- Fuelled scan implementing `re.sub(r'<[^>]+>', '', content_text)` (line 69
of `documents.py`): at each `'<'`, if a `'>'` follows with at least one
character in between, the whole `<...>` run is removed and scanning resumes
after the `'>'`; otherwise the character is kept.  (`[^>]+` cannot cross a
`'>'`, so a match always ends at the first `'>'`.) -/
def stripTagsGo : Nat → List Char → List Char
  | _, [] => []
  | 0, l => l
  | k + 1, c :: cs =>
    if c = '<' then
      match splitAtGt cs with
      | some (pre, rest) => if pre.isEmpty then c :: stripTagsGo k cs else stripTagsGo k rest
      | none => c :: stripTagsGo k cs
    else
      c :: stripTagsGo k cs

/-- Model of `re.sub(r'<[^>]+>', '', content_text)` (line 69). -/
def stripTags (l : List Char) : List Char := stripTagsGo l.length l

/-- Embedding of `_generate_content_preview(content_text, search_term,
max_length)` (`documents.py` lines 62–89).  `none` models a Python `None`
argument, which is falsy exactly like the empty string. -/
def generate_content_preview (content_text : Option String) (search_term : String)
    (max_length : Nat := 200) : String :=
  match content_text with
  | none => ""
  | some txt =>
    if txt.isEmpty then ""
    else
      let clean := stripTags txt.data
      if search_term.isEmpty then
        if clean.length > max_length then String.mk (clean.take max_length) ++ "..."
        else String.mk clean
      else
        match findSub (lowerL search_term.data) (lowerL clean) with
        | none =>
          if clean.length > max_length then String.mk (clean.take max_length) ++ "..."
          else String.mk clean
        | some pos =>
          let start := pos - 50
          let stop := min clean.length (pos + search_term.length + 50)
          let preview := (clean.drop start).take (stop - start)
          let preview := if start > 0 then "...".data ++ preview else preview
          let preview := if stop < clean.length then preview ++ "...".data else preview
          String.mk preview

example : highlight_text "Hello World" "hello" 100 = "<mark>Hello</mark> World" := by decide

example : generate_content_preview (some "<p>abc</p>") "b" = "abc" := by decide

example : generate_content_preview (some "<p></p>") "x" = "" := by decide

/-- SQL `col LIKE '%kw%'` / SQLAlchemy `.contains` on a non-null string
column, case-sensitive as the spec fixes for basic mode. -/
def strContains (hay needle : String) : Bool := isSubL needle.data hay.data

/-- SQLAlchemy `.contains` on a nullable column: a NULL column never matches. -/
def optContains (col : Option String) (kw : String) : Bool :=
  match col with
  | none => false
  | some s => strContains s kw

/-- WHERE clause of the basic search (lines 199–207 of `documents.py`):
not soft-deleted, and the keyword contained in title, excerpt or
content_text. -/
def basicPred (kw : String) (d : Document) : Bool :=
  d.deleted_at.isNone &&
    (strContains d.title kw || optContains d.excerpt kw || optContains d.content_text kw)

/-- Numeric value of a SQL boolean in ORDER BY (false sorts before true). -/
def b2n (b : Bool) : Nat := if b then 1 else 0

/-- ORDER BY of the basic search (lines 208–212): ascending on NOT(title
contains keyword), then ascending on NOT(excerpt contains keyword), then
updated_at descending. -/
def basicLe (kw : String) (a b : Document) : Bool :=
  let ta := b2n (!(strContains a.title kw))
  let tb := b2n (!(strContains b.title kw))
  let ea := b2n (!(optContains a.excerpt kw))
  let eb := b2n (!(optContains b.excerpt kw))
  decide (ta < tb) ||
    (decide (ta = tb) &&
      (decide (ea < eb) || (decide (ea = eb) && decide (b.updated_at ≤ a.updated_at))))

/-- Propositional form of the basic ORDER BY comparator. -/
def basicRel (kw : String) : Document → Document → Prop := fun a b => basicLe kw a b = true

instance (kw : String) : DecidableRel (basicRel kw) :=
  fun a b => instDecidableEqBool (basicLe kw a b) true

theorem basicLe_total (kw : String) (a b : Document) :
    basicLe kw a b = true ∨ basicLe kw b a = true := by
  simp only [basicLe, Bool.or_eq_true, Bool.and_eq_true, decide_eq_true_eq]
  omega

theorem basicLe_trans (kw : String) (a b c : Document) (h1 : basicLe kw a b = true)
    (h2 : basicLe kw b c = true) : basicLe kw a c = true := by
  simp only [basicLe, Bool.or_eq_true, Bool.and_eq_true, decide_eq_true_eq] at h1 h2 ⊢
  omega

instance (kw : String) : IsTotal Document (basicRel kw) :=
  ⟨fun a b => basicLe_total kw a b⟩

instance (kw : String) : IsTrans Document (basicRel kw) :=
  ⟨fun a b c => basicLe_trans kw a b c⟩

/-- One concrete enumeration order satisfying the ORDER BY clause; the engine
delegates the actual ordering to the store, and the claims only concern
consistency of the result with the comparator. -/
def sortBy (kw : String) (l : List Document) : List Document :=
  List.insertionSort (basicRel kw) l

/-- Modelled from the spec: the document store collaborator (§6).  `docs` is
the table contents; `countErr` and `pageErr` inject store failures into the
count query and the page query; `supportsFulltext`, `ftRanked` and `ftErr`
model the optional native full-text capability, `ftRanked` being the store's
opaque relevance-ranked match list for a keyword and `ftErr` the store's error
text when the capability is missing (e.g. no full-text index). -/
structure Store where
  docs : List Document
  countErr : Option String := none
  pageErr : Option String := none
  supportsFulltext : Bool := false
  ftRanked : String → List (Document × Int) := fun _ => []
  ftErr : String := "no FULLTEXT index on documents"

/-- Basic-mode count query `query.count()` (line 214). -/
def Store.execCount (s : Store) (pred : Document → Bool) : Except String Nat :=
  match s.countErr with
  | some e => Except.error e
  | none => Except.ok ((s.docs.filter pred).length)

/-- Basic-mode page query `query.offset(...).limit(...).all()` (line 215). -/
def Store.execPage (s : Store) (kw : String) (pred : Document → Bool)
    (offset limit : Nat) : Except String (List Document) :=
  match s.pageErr with
  | some e => Except.error e
  | none => Except.ok (((sortBy kw (s.docs.filter pred)).drop offset).take limit)

/-- Full-text rows: the store's ranked match list restricted by the
`deleted_at IS NULL` condition of the raw SQL (lines 169–177). -/
def Store.ftRows (s : Store) (kw : String) : List (Document × Int) :=
  (s.ftRanked kw).filter (fun r => r.1.deleted_at.isNone)

/-- Full-text page query `db.execute(search_query, ...).fetchall()` (lines
188–192); raises the store's error when full-text search is unsupported. -/
def Store.execFtPage (s : Store) (kw : String) (offset limit : Nat) :
    Except String (List (Document × Int)) :=
  if !s.supportsFulltext then Except.error s.ftErr
  else
    match s.pageErr with
    | some e => Except.error e
    | none => Except.ok (((s.ftRows kw).drop offset).take limit)

/-- Full-text count query `db.execute(count_query, ...).fetchone()` (line
194); raises the store's error when full-text search is unsupported. -/
def Store.execFtCount (s : Store) (kw : String) : Except String Nat :=
  if !s.supportsFulltext then Except.error s.ftErr
  else
    match s.countErr with
    | some e => Except.error e
    | none => Except.ok (s.ftRows kw).length

deriving instance DecidableEq for Except

/-- Error raised by the endpoint: FastAPI `HTTPException`. -/
structure HTTPError where
  status_code : Nat
  detail : String
deriving Repr, DecidableEq

/-- Modelled from the spec: `DocumentSearchResult` (§3, §6) — the document
read projection plus optional relevance score (fulltext only), optional
highlight set, and the always-present content preview. -/
structure DocumentSearchResult where
  id : Nat
  title : String
  excerpt : Option String
  status : Nat
  is_pinned : Bool
  updated_at : Nat
  relevance_score : Option Int := none
  highlights : Option SearchHighlight := none
  content_preview : String
deriving Repr, DecidableEq

/-- Modelled from the spec: `DocumentSearchResponse` (§3, §6).  The
observational `search_time_ms` wall-clock field is outside the embedding. -/
structure DocumentSearchResponse where
  items : List DocumentSearchResult
  total : Nat
  pages : Nat
  current_page : Nat
  per_page : Nat
  keyword : String
  search_mode : String
deriving Repr, DecidableEq

/-- Assembly of one basic-mode result row (lines 255–261). -/
def mkBasicResult (kw : String) (highlight : Bool) (d : Document) : DocumentSearchResult :=
  { id := d.id, title := d.title, excerpt := d.excerpt, status := d.status,
    is_pinned := d.is_pinned, updated_at := d.updated_at,
    relevance_score := none,
    highlights := if highlight then some (generate_highlights d kw) else none,
    content_preview := generate_content_preview d.content_text kw }

/-- Assembly of one fulltext-mode result row (lines 221–253): the temporary
document used for highlighting carries exactly the row's title, excerpt and
content_text. -/
def mkFtResult (kw : String) (highlight : Bool) (row : Document × Int) : DocumentSearchResult :=
  { id := row.1.id, title := row.1.title, excerpt := row.1.excerpt, status := row.1.status,
    is_pinned := row.1.is_pinned, updated_at := row.1.updated_at,
    relevance_score := some row.2,
    highlights := if highlight then some (generate_highlights row.1 kw) else none,
    content_preview := generate_content_preview row.1.content_text kw }

/-- Embedding of the `search_documents` endpoint body (`documents.py` lines
151–281): the whole `try` block, with any store error wrapped into the HTTP
500 response `搜索失败: {cause}` by the `except` clause.  Request validation
(keyword 1–200 characters, page ≥ 1, per_page in [1,50], mode enum) happens at
the FastAPI boundary before this body runs and is carried as hypotheses of the
theorems. -/
def search_documents (db : Store) (keyword : String) (page : Nat := 1) (per_page : Nat := 10)
    (search_mode : String := "basic") (highlight : Bool := true) :
    Except HTTPError DocumentSearchResponse :=
  let body : Except String DocumentSearchResponse :=
    if search_mode = "fulltext" then
      match db.execFtPage keyword ((page - 1) * per_page) per_page with
      | Except.error e => Except.error e
      | Except.ok rows =>
        match db.execFtCount keyword with
        | Except.error e => Except.error e
        | Except.ok total =>
          Except.ok {
            items := rows.map (mkFtResult keyword highlight),
            total := total,
            pages := (total + per_page - 1) / per_page,
            current_page := page,
            per_page := per_page,
            keyword := keyword,
            search_mode := search_mode }
    else
      match db.execCount (basicPred keyword) with
      | Except.error e => Except.error e
      | Except.ok total =>
        match db.execPage keyword (basicPred keyword) ((page - 1) * per_page) per_page with
        | Except.error e => Except.error e
        | Except.ok docs =>
          Except.ok {
            items := docs.map (mkBasicResult keyword highlight),
            total := total,
            pages := (total + per_page - 1) / per_page,
            current_page := page,
            per_page := per_page,
            keyword := keyword,
            search_mode := search_mode }
  match body with
  | Except.ok r => Except.ok r
  | Except.error e => Except.error { status_code := 500, detail := "搜索失败: " ++ e }

/-- Ceiling-division formula used by the response assembler (line 264):
`(total + per_page - 1) // per_page` is the mathematical ceiling of
`total / per_page`. -/
theorem ceil_div_formula (a b : Nat) (hb : 0 < b) :
    (a + b - 1) / b = ⌈(a : ℚ) / (b : ℚ)⌉₊ := by
  have hbq : (0 : ℚ) < (b : ℚ) := by exact_mod_cast hb
  apply le_antisymm
  · rw [Nat.div_le_iff_le_mul_add_pred hb]
    have h1 : (a : ℚ) / (b : ℚ) ≤ (⌈(a : ℚ) / (b : ℚ)⌉₊ : ℚ) := Nat.le_ceil _
    rw [div_le_iff₀ hbq] at h1
    have h2 : a ≤ ⌈(a : ℚ) / (b : ℚ)⌉₊ * b := by exact_mod_cast h1
    rw [Nat.mul_comm] at h2
    omega
  · rw [Nat.ceil_le, div_le_iff₀ hbq]
    have h3 : a ≤ b * ((a + b - 1) / b) := by
      have hdm := Nat.div_add_mod (a + b - 1) b
      have hlt := Nat.mod_lt (a + b - 1) hb
      omega
    rw [Nat.mul_comm] at h3
    exact_mod_cast h3

/-- C1: for valid parameters the response's `pages` is the ceiling of
`total / per_page`, at most `per_page` items are returned, and in both modes
the total and the returned page are computed from the same filtered set
(non-deleted documents matching the keyword condition of the mode). -/
theorem search_pagination_consistent (db : Store) (kw : String) (page pp : Nat) (mode : String)
    (hl : Bool) (hpage : 1 ≤ page) (hpp1 : 1 ≤ pp) (hpp2 : pp ≤ 50)
    (r : DocumentSearchResponse)
    (h : search_documents db kw page pp mode hl = Except.ok r) :
    r.pages = ⌈(r.total : ℚ) / (pp : ℚ)⌉₊ ∧
    r.items.length ≤ pp ∧
    (mode ≠ "fulltext" →
      r.total = (db.docs.filter (basicPred kw)).length ∧
      ∀ it ∈ r.items, ∃ d ∈ db.docs.filter (basicPred kw), it = mkBasicResult kw hl d) ∧
    (mode = "fulltext" →
      r.total = (db.ftRows kw).length ∧
      ∀ it ∈ r.items, ∃ row ∈ db.ftRows kw, it = mkFtResult kw hl row) := by
  by_cases hm : mode = "fulltext"
  · simp only [search_documents, hm, if_true] at h
    cases hsup : db.supportsFulltext with
    | false => simp [Store.execFtPage, hsup] at h
    | true =>
      cases hpe : db.pageErr with
      | some e => simp [Store.execFtPage, hsup, hpe] at h
      | none =>
        cases hce : db.countErr with
        | some e => simp [Store.execFtPage, Store.execFtCount, hsup, hpe, hce] at h
        | none =>
          simp only [Store.execFtPage, Store.execFtCount, hsup, hpe, hce, Bool.not_true,
            Bool.false_eq_true, if_false, Except.ok.injEq] at h
          subst h
          refine ⟨ceil_div_formula _ pp (by omega), ?_, by simp [hm], fun _ => ⟨rfl, ?_⟩⟩
          · simp only [List.length_map]
            exact le_trans (List.length_take_le _ _) (le_refl _)
          · intro it hit
            simp only [List.mem_map] at hit
            obtain ⟨row, hrow, hmk⟩ := hit
            exact ⟨row, List.drop_subset _ _ (List.take_subset _ _ hrow), hmk.symm⟩
  · simp only [search_documents, hm, if_false] at h
    cases hce : db.countErr with
    | some e => simp [Store.execCount, hce] at h
    | none =>
      cases hpe : db.pageErr with
      | some e => simp [Store.execCount, Store.execPage, hce, hpe] at h
      | none =>
        simp only [Store.execCount, Store.execPage, hce, hpe, Except.ok.injEq] at h
        subst h
        refine ⟨ceil_div_formula _ pp (by omega), ?_, fun _ => ⟨rfl, ?_⟩, by simp [hm]⟩
        · simp only [List.length_map]
          exact le_trans (List.length_take_le _ _) (le_refl _)
        · intro it hit
          simp only [List.mem_map] at hit
          obtain ⟨d, hd, hmk⟩ := hit
          refine ⟨d, ?_, hmk.symm⟩
          have hmem : d ∈ sortBy kw (db.docs.filter (basicPred kw)) :=
            List.drop_subset _ _ (List.take_subset _ _ hd)
          simpa [sortBy, List.mem_insertionSort] using hmem

/-- Demo fixture: a document matching the keyword only in its content text. -/
def dIntro : Document :=
  { id := 1, title := "intro", content_text := some "say hello here", updated_at := 5 }

/-- Demo fixture: a more stale document with the keyword in its title. -/
def dHello : Document :=
  { id := 2, title := "hello world", content_text := some "other text", updated_at := 3 }

/-- Demo fixture: a two-document store. -/
def demoStore : Store := { docs := [dIntro, dHello] }

/-- Demo fixture: the response of the basic search for "hello" on `demoStore`. -/
def demoResp : DocumentSearchResponse :=
  { items := [mkBasicResult "hello" false dHello, mkBasicResult "hello" false dIntro],
    total := 2, pages := 1, current_page := 1, per_page := 10,
    keyword := "hello", search_mode := "basic" }

/-- Witness for C1 at a concrete store and request. -/
theorem search_pagination_consistent_witness :
    demoResp.pages = ⌈(demoResp.total : ℚ) / (10 : ℚ)⌉₊ ∧ demoResp.items.length ≤ 10 :=
  ⟨(search_pagination_consistent demoStore "hello" 1 10 "basic" false (by decide) (by decide)
      (by decide) demoResp (by decide)).1,
   (search_pagination_consistent demoStore "hello" 1 10 "basic" false (by decide) (by decide)
      (by decide) demoResp (by decide)).2.1⟩

/-- Title tier of the basic ordering, on a returned item. -/
def titleHit (kw : String) (it : DocumentSearchResult) : Bool := strContains it.title kw

/-- Excerpt tier of the basic ordering, on a returned item. -/
def excerptHit (kw : String) (it : DocumentSearchResult) : Bool := optContains it.excerpt kw

/-- Three-tier relation claimed for consecutive pairs of returned items: a
title hit never follows a non-hit; within equal title tiers an excerpt hit
never follows a non-hit; within equal tiers the earlier item is no staler. -/
def resultTier (kw : String) (a b : DocumentSearchResult) : Prop :=
  (titleHit kw b = true → titleHit kw a = true) ∧
  (titleHit kw a = titleHit kw b →
    (excerptHit kw b = true → excerptHit kw a = true) ∧
    (excerptHit kw a = excerptHit kw b → b.updated_at ≤ a.updated_at))

theorem basicLe_tier (kw : String) (hl : Bool) (d1 d2 : Document)
    (h : basicLe kw d1 d2 = true) :
    resultTier kw (mkBasicResult kw hl d1) (mkBasicResult kw hl d2) := by
  simp only [resultTier, titleHit, excerptHit, mkBasicResult]
  simp only [basicLe, Bool.or_eq_true, Bool.and_eq_true, decide_eq_true_eq] at h
  cases hA : strContains d1.title kw <;> cases hB : strContains d2.title kw <;>
    cases hC : optContains d1.excerpt kw <;> cases hD : optContains d2.excerpt kw <;>
    simp_all [b2n]

/-- C2: in basic mode the returned items are ordered by the three-tier
relation (title hits first, then excerpt hits, then most recently updated
first); in particular, on the demo store the title-hit document (id 2) is
returned before the document whose keyword occurs only in content text
(id 1), although the latter is more recent. -/
theorem basic_order_three_tier :
    (∀ (db : Store) (kw : String) (page pp : Nat) (hl : Bool) (r : DocumentSearchResponse),
        search_documents db kw page pp "basic" hl = Except.ok r →
        r.items.Pairwise (resultTier kw)) ∧
    (search_documents demoStore "hello" 1 10 "basic" false).map
        (fun r => r.items.map (fun it => it.id)) = Except.ok [2, 1] := by
  constructor
  · intro db kw page pp hl r h
    simp only [search_documents] at h
    rw [if_neg (by decide : ¬("basic" = "fulltext"))] at h
    cases hce : db.countErr with
    | some e => simp [Store.execCount, hce] at h
    | none =>
      cases hpe : db.pageErr with
      | some e => simp [Store.execCount, Store.execPage, hce, hpe] at h
      | none =>
        simp only [Store.execCount, Store.execPage, hce, hpe, Except.ok.injEq] at h
        subst h
        simp only
        have hs : (sortBy kw (db.docs.filter (basicPred kw))).Pairwise (basicRel kw) :=
          List.sorted_insertionSort (basicRel kw) (db.docs.filter (basicPred kw))
        have hsub :
            (((sortBy kw (db.docs.filter (basicPred kw))).drop ((page - 1) * pp)).take pp).Sublist
              (sortBy kw (db.docs.filter (basicPred kw))) :=
          (List.take_sublist _ _).trans (List.drop_sublist _ _)
        have hp := hs.sublist hsub
        exact hp.map _ (fun a b hab => basicLe_tier kw hl a b hab)
  · decide

/-- Witness for C2 at the demo store. -/
theorem basic_order_three_tier_witness :
    demoResp.items.Pairwise (resultTier "hello") :=
  basic_order_three_tier.1 demoStore "hello" 1 10 false demoResp (by decide)

/-- C6: a store error in either of the two queries of either mode surfaces as
the single HTTP 500 error whose detail is `搜索失败: ` followed by the cause;
the result is an `Except.error`, which carries no items, so no partial page is
ever returned.  In basic mode the count query runs first; in fulltext mode the
page query runs first. -/
theorem store_errors_wrapped (db : Store) (kw : String) (page pp : Nat) (hl : Bool)
    (e : String) :
    (db.countErr = some e →
      search_documents db kw page pp "basic" hl =
        Except.error { status_code := 500, detail := "搜索失败: " ++ e }) ∧
    (db.countErr = none → db.pageErr = some e →
      search_documents db kw page pp "basic" hl =
        Except.error { status_code := 500, detail := "搜索失败: " ++ e }) ∧
    (db.supportsFulltext = true → db.pageErr = some e →
      search_documents db kw page pp "fulltext" hl =
        Except.error { status_code := 500, detail := "搜索失败: " ++ e }) ∧
    (db.supportsFulltext = true → db.pageErr = none → db.countErr = some e →
      search_documents db kw page pp "fulltext" hl =
        Except.error { status_code := 500, detail := "搜索失败: " ++ e }) := by
  refine ⟨fun h1 => ?_, fun h1 h2 => ?_, fun h1 h2 => ?_, fun h1 h2 h3 => ?_⟩
  · simp only [search_documents]
    rw [if_neg (by decide : ¬("basic" = "fulltext"))]
    simp [Store.execCount, h1]
  · simp only [search_documents]
    rw [if_neg (by decide : ¬("basic" = "fulltext"))]
    simp [Store.execCount, Store.execPage, h1, h2]
  · simp only [search_documents]
    simp [Store.execFtPage, h1, h2]
  · simp only [search_documents]
    simp [Store.execFtPage, Store.execFtCount, h1, h2, h3]

/-- Fixture: store whose count query fails. -/
def errStoreCount : Store := { docs := [], countErr := some "connection lost" }

/-- Fixture: store whose page query fails. -/
def errStorePage : Store := { docs := [], pageErr := some "connection lost" }

/-- Fixture: full-text-capable store whose page query fails. -/
def errStoreFtPage : Store :=
  { docs := [], supportsFulltext := true, pageErr := some "connection lost" }

/-- Fixture: full-text-capable store whose count query fails. -/
def errStoreFtCount : Store :=
  { docs := [], supportsFulltext := true, countErr := some "connection lost" }

/-- Witness for C6 at concrete failing stores, covering all four cases. -/
theorem store_errors_wrapped_witness :
    search_documents errStoreCount "k" 1 10 "basic" true =
      Except.error { status_code := 500, detail := "搜索失败: connection lost" } ∧
    search_documents errStorePage "k" 1 10 "basic" true =
      Except.error { status_code := 500, detail := "搜索失败: connection lost" } ∧
    search_documents errStoreFtPage "k" 1 10 "fulltext" true =
      Except.error { status_code := 500, detail := "搜索失败: connection lost" } ∧
    search_documents errStoreFtCount "k" 1 10 "fulltext" true =
      Except.error { status_code := 500, detail := "搜索失败: connection lost" } :=
  ⟨(store_errors_wrapped errStoreCount "k" 1 10 true "connection lost").1 rfl,
   (store_errors_wrapped errStorePage "k" 1 10 true "connection lost").2.1 rfl rfl,
   (store_errors_wrapped errStoreFtPage "k" 1 10 true "connection lost").2.2.1 rfl rfl,
   (store_errors_wrapped errStoreFtCount "k" 1 10 true "connection lost").2.2.2 rfl rfl rfl⟩

/-- C5 (amended): requesting fulltext mode against a store without full-text
support fails with the generic HTTP 500 `搜索失败` error carrying the store's
own cause text; no ok response (hence no items) is produced and the engine
never falls back to basic mode.  The code has no dedicated "unsupported search
mode" error. -/
theorem fulltext_unsupported_fails (db : Store) (kw : String) (page pp : Nat) (hl : Bool)
    (h : db.supportsFulltext = false) :
    search_documents db kw page pp "fulltext" hl =
      Except.error { status_code := 500, detail := "搜索失败: " ++ db.ftErr } ∧
    ∀ r : DocumentSearchResponse, search_documents db kw page pp "fulltext" hl ≠ Except.ok r := by
  have hmain : search_documents db kw page pp "fulltext" hl =
      Except.error { status_code := 500, detail := "搜索失败: " ++ db.ftErr } := by
    simp only [search_documents]
    simp [Store.execFtPage, h]
  exact ⟨hmain, fun r hr => by rw [hmain] at hr; exact Except.noConfusion hr⟩

/-- Fixture: a store without full-text capability (default error text). -/
def ftlessStore : Store := { docs := [dHello] }

/-- Counterexample to C5 as stated: at a concrete full-text-incapable store
the fulltext request fails with the generic `搜索失败` wrapper around the
store's cause; the error detail mentions no unsupported search mode (neither
in English nor in Chinese). -/
theorem fulltext_unsupported_cex :
    search_documents ftlessStore "hello" 1 10 "fulltext" true =
      Except.error
        { status_code := 500, detail := "搜索失败: no FULLTEXT index on documents" } ∧
    strContains "搜索失败: no FULLTEXT index on documents" "unsupported search mode" = false ∧
    strContains "搜索失败: no FULLTEXT index on documents" "不支持" = false := by
  refine ⟨?_, by decide, by decide⟩
  decide

/-- Witness for C5 (amended) at a concrete store and request. -/
theorem fulltext_unsupported_fails_witness :
    search_documents ftlessStore "x" 2 5 "fulltext" false =
      Except.error
        { status_code := 500, detail := "搜索失败: no FULLTEXT index on documents" } :=
  (fulltext_unsupported_fails ftlessStore "x" 2 5 false rfl).1

/-- Any index returned by `findSub` leaves room for the whole needle. -/
theorem findSub_bound : ∀ {l p : List Char} {i : Nat},
    findSub p l = some i → i + p.length ≤ l.length := by
  intro l
  induction l with
  | nil =>
    intro p i h
    simp only [findSub] at h
    by_cases hp : p.isPrefixOf ([] : List Char)
    · rw [if_pos hp] at h
      injection h with h0
      have hpl : p = [] := List.prefix_nil.mp (List.isPrefixOf_iff_prefix.mp hp)
      subst hpl
      simp [← h0]
    · rw [if_neg hp] at h
      exact absurd h (by simp)
  | cons c t ih =>
    intro p i h
    simp only [findSub] at h
    by_cases hp : p.isPrefixOf (c :: t)
    · rw [if_pos hp] at h
      injection h with h0
      have hle := (List.isPrefixOf_iff_prefix.mp hp).length_le
      simp only [List.length_cons] at hle ⊢
      omega
    · rw [if_neg hp] at h
      simp only [Option.map_eq_some'] at h
      obtain ⟨j, hj, hij⟩ := h
      have := ih hj
      simp only [List.length_cons]
      omega

/-- A `String.mk` is the empty string exactly when its character list is empty. -/
theorem stringMk_eq_empty_iff (l : List Char) : String.mk l = "" ↔ l = [] := by
  constructor
  · intro h
    have := congrArg String.data h
    simpa using this
  · intro h; subst h; rfl

/-- The truncate-to-max-length fallback of the preview builder never returns
the empty string on a non-empty cleaned text. -/
theorem truncFallback_ne_empty (l : List Char) (ml : Nat) (hl : l ≠ []) :
    (if l.length > ml then String.mk (l.take ml) ++ "..." else String.mk l) ≠ "" := by
  by_cases hlen : l.length > ml
  · rw [if_pos hlen]
    intro h
    have := congrArg String.data h
    simp [String.data_append] at this
  · rw [if_neg hlen]
    rw [Ne, stringMk_eq_empty_iff]
    exact hl

/-- Case-insensitive containment lifted to a nullable field: a missing field
contains nothing. -/
def optContainsCI (col : Option String) (kw : String) : Bool :=
  match col with
  | none => false
  | some s => containsCI s kw

/-- C8: when the keyword does not occur case-insensitively in a field (in
particular when the field is NULL), that field's highlight is absent from the
generated highlight set; absence is an omission, not an error value. -/
theorem highlight_absent_without_occurrence (d : Document) (kw : String) :
    (containsCI d.title kw = false → (generate_highlights d kw).title = none) ∧
    (optContainsCI d.excerpt kw = false → (generate_highlights d kw).excerpt = none) ∧
    (optContainsCI d.content_text kw = false →
      (generate_highlights d kw).content_preview = none) := by
  refine ⟨fun h => ?_, fun h => ?_, fun h => ?_⟩
  · simp [generate_highlights, h]
  · cases hx : d.excerpt with
    | none => simp [generate_highlights, hx]
    | some ex =>
      rw [hx] at h
      simp only [optContainsCI] at h
      simp [generate_highlights, hx, h]
  · cases hx : d.content_text with
    | none => simp [generate_highlights, hx]
    | some ct =>
      rw [hx] at h
      simp only [optContainsCI] at h
      simp [generate_highlights, hx, h]

/-- Witness for C8: "zzz" occurs in no field of the demo document. -/
theorem highlight_absent_without_occurrence_witness :
    (generate_highlights dIntro "zzz").title = none ∧
    (generate_highlights dIntro "zzz").excerpt = none ∧
    (generate_highlights dIntro "zzz").content_preview = none :=
  ⟨(highlight_absent_without_occurrence dIntro "zzz").1 (by decide),
   (highlight_absent_without_occurrence dIntro "zzz").2.1 (by decide),
   (highlight_absent_without_occurrence dIntro "zzz").2.2 (by decide)⟩

/-- C9: the highlight generator is deterministic and reads nothing beyond the
document's title, excerpt and content_text together with the search term:
running it twice on the same input yields the same highlight set, and any
document agreeing on those three fields yields the same highlight set.  (The
embedded generator is a pure function, mirroring the Python code, which only
reads its two arguments and locals and writes nothing.) -/
theorem highlight_generation_deterministic (d d' : Document) (kw : String)
    (ht : d'.title = d.title) (he : d'.excerpt = d.excerpt)
    (hc : d'.content_text = d.content_text) :
    generate_highlights d kw = generate_highlights d kw ∧
    generate_highlights d' kw = generate_highlights d kw := by
  refine ⟨rfl, ?_⟩
  simp only [generate_highlights, ht, he, hc]

/-- Fixture: a document sharing `dIntro`'s text fields but nothing else. -/
def dIntroCopy : Document :=
  { id := 99, title := "intro", content_text := some "say hello here",
    updated_at := 0, status := 2, is_pinned := true }

/-- Witness for C9 at concrete documents. -/
theorem highlight_generation_deterministic_witness :
    generate_highlights dIntroCopy "hello" = generate_highlights dIntro "hello" :=
  (highlight_generation_deterministic dIntro dIntroCopy "hello" rfl rfl rfl).2

theorem map_preview_mkBasic (kw : String) (hl : Bool) (docs : List Document) :
    (docs.map (mkBasicResult kw hl)).map (fun it => it.content_preview) =
      docs.map (fun d => generate_content_preview d.content_text kw) := by
  simp [List.map_map, Function.comp, mkBasicResult]

theorem map_preview_mkFt (kw : String) (hl : Bool) (rows : List (Document × Int)) :
    (rows.map (mkFtResult kw hl)).map (fun it => it.content_preview) =
      rows.map (fun row => generate_content_preview row.1.content_text kw) := by
  simp [List.map_map, Function.comp, mkFtResult]

/-- C4 (amended): the content preview of every result is computed
independently of the highlight flag, and it is non-empty whenever the
tag-stripped content text is non-empty.  (Content consisting solely of markup
tags strips to nothing and then yields an empty preview, so non-emptiness of
the raw content text alone does not suffice.) -/
theorem content_preview_flag_independent (db : Store) (kw : String) (page pp : Nat)
    (mode : String) :
    (search_documents db kw page pp mode true).map
        (fun r => r.items.map (fun it => it.content_preview)) =
      (search_documents db kw page pp mode false).map
        (fun r => r.items.map (fun it => it.content_preview)) ∧
    (∀ ct kw2 : String, stripTags ct.data ≠ [] →
      generate_content_preview (some ct) kw2 ≠ "") := by
  constructor
  · by_cases hm : mode = "fulltext"
    · simp only [search_documents, hm, if_true]
      cases hsup : db.supportsFulltext with
      | false => simp [Store.execFtPage, hsup]
      | true =>
        cases hpe : db.pageErr with
        | some e => simp [Store.execFtPage, hsup, hpe]
        | none =>
          cases hce : db.countErr with
          | some e => simp [Store.execFtPage, Store.execFtCount, hsup, hpe, hce]
          | none =>
            simp only [Store.execFtPage, Store.execFtCount, hsup, hpe, hce, Bool.not_true,
              Bool.false_eq_true, if_false, Except.map]
            rw [map_preview_mkFt, map_preview_mkFt]
    · simp only [search_documents, hm, if_false]
      cases hce : db.countErr with
      | some e => simp [Store.execCount, hce]
      | none =>
        cases hpe : db.pageErr with
        | some e => simp [Store.execCount, Store.execPage, hce, hpe]
        | none =>
          simp only [Store.execCount, Store.execPage, hce, hpe, Except.map]
          rw [map_preview_mkBasic, map_preview_mkBasic]
  · intro ct kw2 h
    by_cases hct : ct.isEmpty
    · exfalso
      apply h
      have : ct = "" := (String.isEmpty_iff ct).mp hct
      subst this
      rfl
    · simp only [generate_content_preview, hct, Bool.false_eq_true, if_false]
      by_cases hk : kw2.isEmpty
      · simp only [hk, if_true]
        exact truncFallback_ne_empty _ _ h
      · simp only [hk, Bool.false_eq_true, if_false]
        cases hfind : findSub (lowerL kw2.data) (lowerL (stripTags ct.data)) with
        | none => exact truncFallback_ne_empty _ _ h
        | some pos =>
          have hb := findSub_bound hfind
          simp only [lowerL, List.length_map] at hb
          have hk1 : 1 ≤ kw2.data.length := by
            rcases hd : kw2.data with _ | ⟨c, cs⟩
            · exfalso
              apply hk
              rw [String.isEmpty_iff]
              cases kw2 with
              | mk l => simp at hd; rw [hd]
            · simp
          have hpos : pos < (stripTags ct.data).length := by
            have : kw2.length = kw2.data.length := rfl
            omega
          have hcore : ((stripTags ct.data).drop (pos - 50)).take
              (min (stripTags ct.data).length (pos + kw2.length + 50) - (pos - 50)) ≠ [] := by
            have hlen : (((stripTags ct.data).drop (pos - 50)).take
                (min (stripTags ct.data).length (pos + kw2.length + 50) - (pos - 50))).length =
                min (min (stripTags ct.data).length (pos + kw2.length + 50) - (pos - 50))
                  ((stripTags ct.data).length - (pos - 50)) := by
              simp [List.length_take, List.length_drop]
            intro hnil
            rw [hnil] at hlen
            simp only [List.length_nil] at hlen
            have : kw2.length = kw2.data.length := rfl
            omega
          by_cases h1 : min (stripTags ct.data).length (pos + kw2.length + 50) <
              (stripTags ct.data).length <;>
            by_cases h2 : 0 < pos - 50 <;>
            simp [h1, h2, stringMk_eq_empty_iff, List.append_eq_nil, hcore]

/-- Fixture: a matching document whose content text is only markup. -/
def dTagOnly : Document :=
  { id := 3, title := "x", content_text := some "<p></p>", updated_at := 1 }

/-- Fixture: store holding only `dTagOnly`. -/
def tagStore : Store := { docs := [dTagOnly] }

/-- Counterexample to C4 as stated: a search result whose source content text
is the non-empty string `<p></p>` carries an empty content preview. -/
theorem content_preview_cex :
    (search_documents tagStore "x" 1 10 "basic" true).map
        (fun r => r.items.map (fun it => it.content_preview)) = Except.ok [""] ∧
    tagStore.docs.map (fun d => d.content_text) = [some "<p></p>"] ∧
    ("<p></p>" : String) ≠ "" := by
  refine ⟨by decide, by decide, by decide⟩

/-- Witness for C4 (amended), applying the theorem at concrete inputs. -/
theorem content_preview_flag_independent_witness :
    generate_content_preview (some "say hello here") "zzz" ≠ "" :=
  (content_preview_flag_independent demoStore "hello" 1 10 "basic").2
    "say hello here" "zzz" (by decide)

/-- The character window `(start, stop)` selected by `highlight_text` when the
term occurs (lines 36–37 of `documents.py`). -/
def hlWindow (text term : String) : Option (Nat × Nat) :=
  match findCI term.data text.data with
  | none => none
  | some s => some (s - 50, min text.length (s + term.length + 50))

/-- Fixture: a 101-character title with the keyword in the middle. -/
def t101 : String := String.mk (List.replicate 50 'a' ++ 'x' :: List.replicate 50 'a')

/-- Counterexample to C7 as stated: with `max_length = 100` (the title limit)
the produced fragment stems from a 101-character window and is 114 characters
long — the per-field `max_length` does not bound the match window. -/
theorem highlight_window_cex :
    hlWindow t101 "x" = some (0, 101) ∧
    101 - 0 > 100 ∧
    (highlight_text t101 "x" 100).length = 114 := by
  refine ⟨by decide, by decide, by decide⟩

/-- `isSubL` agrees with `findSub` returning a hit. -/
theorem isSubL_iff_findSub (p : List Char) :
    ∀ l : List Char, isSubL p l = (findSub p l).isSome := by
  intro l
  induction l with
  | nil => cases p <;> simp [isSubL, findSub, List.isPrefixOf]
  | cons c t ih =>
    by_cases hp : p.isPrefixOf (c :: t)
    · simp [isSubL, findSub, hp]
    · simp [isSubL, findSub, hp, ih]

/-- A case-insensitive containment hit yields a first-occurrence index. -/
theorem containsCI_findCI {text term : String} (h : containsCI text term = true) :
    ∃ s, findCI term.data text.data = some s := by
  rw [containsCI, isSubL_iff_findSub] at h
  exact Option.isSome_iff_exists.mp h

/-- C7 (amended): every produced fragment stems from a window of at most
`keyword length + 100` characters (50 on each side of the first match,
clipped to the field); the per-field `max_length` arguments 100/200/300 play
no role once the keyword occurs, since the fragment is then independent of
`max_length`; a fragment is produced only for fields containing the keyword
case-insensitively, while the basic-mode filter is case-sensitive (last
conjunct exhibits the asymmetry). -/
theorem highlight_window_amended :
    (∀ text term : String, ∀ st sp : Nat, hlWindow text term = some (st, sp) →
      sp - st ≤ term.length + 100) ∧
    (∀ text term : String, ∀ ml1 ml2 : Nat, containsCI text term = true →
      highlight_text text term ml1 = highlight_text text term ml2) ∧
    (∀ (d : Document) (kw : String),
      ((generate_highlights d kw).title.isSome = true → containsCI d.title kw = true) ∧
      ((generate_highlights d kw).excerpt.isSome = true →
        optContainsCI d.excerpt kw = true) ∧
      ((generate_highlights d kw).content_preview.isSome = true →
        optContainsCI d.content_text kw = true)) ∧
    (containsCI "Hello" "hello" = true ∧ strContains "Hello" "hello" = false) := by
  refine ⟨?_, ?_, ?_, by decide, by decide⟩
  · intro text term st sp h
    simp only [hlWindow] at h
    cases hf : findCI term.data text.data with
    | none => rw [hf] at h; exact absurd h (by simp)
    | some s =>
      rw [hf] at h
      simp only [Option.some.injEq, Prod.mk.injEq] at h
      obtain ⟨h1, h2⟩ := h
      subst h1; subst h2
      have := min_le_right text.length (s + term.length + 50)
      omega
  · intro text term ml1 ml2 hci
    by_cases hg : (text.isEmpty || term.isEmpty) = true
    · simp [highlight_text, hg]
    · obtain ⟨s, hs⟩ := containsCI_findCI hci
      simp only [highlight_text, hg, Bool.false_eq_true, if_false, hs]
  · intro d kw
    refine ⟨fun h => ?_, fun h => ?_, fun h => ?_⟩
    · by_cases hc : (!d.title.isEmpty && containsCI d.title kw) = true
      · simp only [Bool.and_eq_true] at hc
        exact hc.2
      · simp [generate_highlights, hc] at h
    · cases hx : d.excerpt with
      | none => simp [generate_highlights, hx] at h
      | some ex =>
        simp only [optContainsCI, hx]
        by_cases hc : (!ex.isEmpty && containsCI ex kw) = true
        · simp only [Bool.and_eq_true] at hc
          exact hc.2
        · simp [generate_highlights, hx, hc] at h
    · cases hx : d.content_text with
      | none => simp [generate_highlights, hx] at h
      | some ct =>
        simp only [optContainsCI, hx]
        by_cases hc : (!ct.isEmpty && containsCI ct kw) = true
        · simp only [Bool.and_eq_true] at hc
          exact hc.2
        · simp [generate_highlights, hx, hc] at h

/-- Witness for C7 (amended) at concrete inputs. -/
theorem highlight_window_amended_witness :
    (3 - 0 ≤ ("b" : String).length + 100) ∧
    highlight_text "Hello World" "hello" 100 = highlight_text "Hello World" "hello" 300 ∧
    containsCI "hello world" "hello" = true :=
  ⟨highlight_window_amended.1 "abc" "b" 0 3 (by decide),
   highlight_window_amended.2.1 "Hello World" "hello" 100 300 (by decide),
   (highlight_window_amended.2.2.1 dHello "hello").1 (by decide)⟩

/-- A hit reported by `findSub` is a real prefix match at that index. -/
theorem findSub_matches_at : ∀ {l p : List Char} {i : Nat},
    findSub p l = some i → p.isPrefixOf (l.drop i) = true := by
  intro l
  induction l with
  | nil =>
    intro p i h
    simp only [findSub] at h
    by_cases hp : p.isPrefixOf ([] : List Char)
    · rw [if_pos hp] at h
      injection h with h0
      rw [← h0]
      exact hp
    · rw [if_neg hp] at h
      exact absurd h (by simp)
  | cons c t ih =>
    intro p i h
    simp only [findSub] at h
    by_cases hp : p.isPrefixOf (c :: t)
    · rw [if_pos hp] at h
      injection h with h0
      rw [← h0]
      exact hp
    · rw [if_neg hp] at h
      simp only [Option.map_eq_some'] at h
      obtain ⟨j, hj, hij⟩ := h
      rw [← hij]
      exact ih hj

/-- The scan of `findSub` returns the least index at which the needle matches:
it agrees with searching the index range left to right. -/
theorem findSub_eq_find? (p : List Char) : ∀ l : List Char,
    findSub p l = (List.range (l.length + 1)).find? (fun i => p.isPrefixOf (l.drop i)) := by
  intro l
  induction l with
  | nil =>
    by_cases hp : p.isPrefixOf ([] : List Char) <;>
      simp [findSub, hp, List.range_succ, List.find?]
  | cons c t ih =>
    simp only [List.length_cons]
    rw [List.range_succ_eq_map]
    by_cases hp : p.isPrefixOf (c :: t)
    · simp only [findSub, hp, if_true]
      rw [List.find?_cons_of_pos _ (by simpa using hp)]
    · simp only [findSub]
      rw [if_neg hp]
      rw [List.find?_cons_of_neg _ (by simpa using hp)]
      rw [List.find?_map]
      have hfun : ((fun i => p.isPrefixOf (List.drop i (c :: t))) ∘ Nat.succ) =
          (fun i => p.isPrefixOf (List.drop i t)) := rfl
      rw [hfun, ← ih]

/-- Spec wording (C3): the keyword matches the field at index `i` ignoring
case. -/
def occursAtCI (term text : String) (i : Nat) : Bool :=
  decide (i + term.length ≤ text.length) &&
    lowerL ((text.data.drop i).take term.length) == lowerL term.data

/-- Spec wording (C3): the first case-insensitive occurrence, obtained by
scanning the index range from the left. -/
def firstOccurrenceCI (term text : String) : Option Nat :=
  (List.range (text.length + 1)).find? (occursAtCI term text)

theorem occursAtCI_eq (term text : String) (hterm : term.data ≠ []) (i : Nat) :
    occursAtCI term text i =
      (lowerL term.data).isPrefixOf ((lowerL text.data).drop i) := by
  have e1 : term.length = term.data.length := rfl
  have e2 : text.length = text.data.length := rfl
  have hterm1 : 0 < term.data.length := List.length_pos.mpr hterm
  have hcomm : lowerL ((text.data.drop i).take term.length) =
      ((lowerL text.data).drop i).take term.length := by
    simp only [lowerL, List.map_take, List.map_drop]
  have hlw : (lowerL term.data).length = term.length := by
    rw [lowerL, List.length_map]
    exact e1.symm
  rw [occursAtCI, hcomm]
  cases hpre : (lowerL term.data).isPrefixOf ((lowerL text.data).drop i) with
  | true =>
    have hp := List.isPrefixOf_iff_prefix.mp hpre
    have hl' : term.data.length ≤ text.data.length - i := by
      simpa [lowerL] using hp.length_le
    simp only [Bool.and_eq_true, decide_eq_true_eq, beq_iff_eq]
    constructor
    · omega
    · have htake := List.prefix_iff_eq_take.mp hp
      rw [show term.length = (lowerL term.data).length from hlw.symm]
      exact htake.symm
  | false =>
    cases hval : (decide (i + term.length ≤ text.length) &&
        (((lowerL text.data).drop i).take term.length == lowerL term.data)) with
    | false => rfl
    | true =>
      exfalso
      simp only [Bool.and_eq_true, decide_eq_true_eq, beq_iff_eq] at hval
      obtain ⟨hle, heq⟩ := hval
      have hgood : (lowerL term.data).isPrefixOf ((lowerL text.data).drop i) = true := by
        rw [List.isPrefixOf_iff_prefix, List.prefix_iff_eq_take]
        rw [hlw]
        exact heq.symm
      rw [hgood] at hpre
      exact Bool.noConfusion hpre

/-- The spec's first-occurrence search coincides with the code's scan. -/
theorem firstOccurrenceCI_eq (term text : String) (hterm : term.data ≠ []) :
    firstOccurrenceCI term text = findCI term.data text.data := by
  rw [firstOccurrenceCI, findCI, findSub_eq_find?]
  have hlen : (lowerL text.data).length = text.length := by simp [lowerL]
  rw [hlen]
  congr 1
  funext i
  exact occursAtCI_eq term text hterm i

theorem findCI_nil (q : Char) (ps : List Char) : findCI (q :: ps) [] = none := by
  simp [findCI, findSub, lowerL, List.isPrefixOf]

theorem findCI_bound {term l : List Char} {i : Nat} (h : findCI term l = some i) :
    i + term.length ≤ l.length := by
  have h' : findSub (lowerL term) (lowerL l) = some i := h
  have := findSub_bound h'
  simpa [lowerL] using this

theorem findCI_cons (q : Char) (ps : List Char) (c : Char) (cs : List Char) :
    findCI (q :: ps) (c :: cs) =
      if isPrefixCI (q :: ps) (c :: cs) then some 0
      else (findCI (q :: ps) cs).map (· + 1) := by
  simp only [findCI, isPrefixCI, lowerL, List.map_cons, findSub]

/-- Fuelled form of the spec's wrapper: repeatedly locate the next
case-insensitive occurrence and wrap it in the markers, continuing after it. -/
def wrapEveryCIGo (term : List Char) : Nat → List Char → List Char
  | 0, l => l
  | k + 1, l =>
    match findCI term l with
    | none => l
    | some i =>
      l.take i ++ mOpen ++ (l.drop i).take term.length ++ mClose ++
        wrapEveryCIGo term k ((l.drop i).drop term.length)

/-- Spec wording (C3): wrap every case-insensitive occurrence of the keyword
(scanning left to right, non-overlapping) in `<mark>...</mark>`. -/
def wrapEveryCI (term l : List Char) : List Char :=
  match term with
  | [] => l
  | _ :: _ => wrapEveryCIGo term l.length l

theorem wrapEveryCIGo_irrel (q : Char) (ps : List Char) :
    ∀ (k₁ k₂ : Nat) (l : List Char), l.length ≤ k₁ → l.length ≤ k₂ →
      wrapEveryCIGo (q :: ps) k₁ l = wrapEveryCIGo (q :: ps) k₂ l := by
  intro k₁
  induction k₁ with
  | zero =>
    intro k₂ l h1 _
    have hl : l = [] := List.eq_nil_of_length_eq_zero (Nat.le_zero.mp h1)
    subst hl
    cases k₂ with
    | zero => rfl
    | succ b => simp [wrapEveryCIGo, findCI_nil]
  | succ a ih =>
    intro k₂ l h1 h2
    cases k₂ with
    | zero =>
      have hl : l = [] := List.eq_nil_of_length_eq_zero (Nat.le_zero.mp h2)
      subst hl
      simp [wrapEveryCIGo, findCI_nil]
    | succ b =>
      simp only [wrapEveryCIGo]
      cases hf : findCI (q :: ps) l with
      | none => rfl
      | some i =>
        dsimp only
        have hb := findCI_bound hf
        simp only [List.length_cons] at hb
        have hrem : (((l.drop i).drop (q :: ps).length)).length ≤ a := by
          simp only [List.length_drop, List.length_cons]
          omega
        have hrem2 : (((l.drop i).drop (q :: ps).length)).length ≤ b := by
          simp only [List.length_drop, List.length_cons]
          omega
        rw [ih b _ hrem hrem2]

theorem wrapEveryCI_none (q : Char) (ps : List Char) (l : List Char)
    (h : findCI (q :: ps) l = none) : wrapEveryCI (q :: ps) l = l := by
  show wrapEveryCIGo (q :: ps) l.length l = l
  cases hl : l with
  | nil => rfl
  | cons c cs =>
    simp only [List.length_cons, wrapEveryCIGo]
    rw [← hl, h]

theorem wrapEveryCI_some (q : Char) (ps : List Char) (l : List Char) (i : Nat)
    (h : findCI (q :: ps) l = some i) :
    wrapEveryCI (q :: ps) l =
      l.take i ++ mOpen ++ (l.drop i).take (ps.length + 1) ++ mClose ++
        wrapEveryCI (q :: ps) ((l.drop i).drop (ps.length + 1)) := by
  have hb := findCI_bound h
  simp only [List.length_cons] at hb
  cases l with
  | nil =>
    rw [findCI_nil] at h
    exact absurd h (by simp)
  | cons c cs =>
    show wrapEveryCIGo (q :: ps) (cs.length + 1) (c :: cs) = _
    simp only [wrapEveryCIGo, h]
    have hlen : (((c :: cs).drop i).drop (ps.length + 1)).length ≤ cs.length := by
      simp only [List.length_drop, List.length_cons]
      omega
    simp only [List.length_cons]
    rw [wrapEveryCIGo_irrel q ps cs.length (((c :: cs).drop i).drop (ps.length + 1)).length
      (((c :: cs).drop i).drop (ps.length + 1)) hlen (Nat.le_refl _)]
    rfl

theorem markSub_eq_wrap (q : Char) (ps : List Char) :
    ∀ (n : Nat) (l : List Char), l.length ≤ n →
      markSub (q :: ps) l = wrapEveryCI (q :: ps) l := by
  intro n
  induction n with
  | zero =>
    intro l h
    have hl : l = [] := List.eq_nil_of_length_eq_zero (Nat.le_zero.mp h)
    subst hl
    rw [markSub_nil, wrapEveryCI_none q ps [] (findCI_nil q ps)]
  | succ a ih =>
    intro l hlen
    cases l with
    | nil => rw [markSub_nil, wrapEveryCI_none q ps [] (findCI_nil q ps)]
    | cons c cs =>
      simp only [List.length_cons] at hlen
      rw [markSub_cons]
      by_cases hpref : isPrefixCI (q :: ps) (c :: cs)
      · have hf : findCI (q :: ps) (c :: cs) = some 0 := by
          rw [findCI_cons, if_pos hpref]
        rw [if_pos hpref, wrapEveryCI_some q ps (c :: cs) 0 hf]
        simp only [List.take_zero, List.drop_zero, List.take_succ_cons, List.drop_succ_cons,
          List.nil_append]
        rw [ih (cs.drop ps.length) (by simp only [List.length_drop]; omega)]
      · rw [if_neg hpref]
        have hf : findCI (q :: ps) (c :: cs) = (findCI (q :: ps) cs).map (· + 1) := by
          rw [findCI_cons, if_neg hpref]
        cases hcs : findCI (q :: ps) cs with
        | none =>
          rw [hcs] at hf
          simp only [Option.map_none'] at hf
          rw [wrapEveryCI_none q ps (c :: cs) hf,
            ih cs (by omega), wrapEveryCI_none q ps cs hcs]
        | some j =>
          rw [hcs] at hf
          simp only [Option.map_some'] at hf
          rw [wrapEveryCI_some q ps (c :: cs) (j + 1) hf,
            ih cs (by omega), wrapEveryCI_some q ps cs j hcs]
          simp only [List.take_succ_cons, List.drop_succ_cons, List.cons_append]

/-- Spec wording (C3): build the highlight fragment by locating the first
case-insensitive occurrence, taking the window from 50 characters before the
match start to 50 characters after the match end clipped to the field's
boundaries, prepending an ellipsis when text is cut off on the left and
appending one when text is cut off on the right, and wrapping every
case-insensitive occurrence inside the decorated window. -/
def highlightFragmentSpec (text term : String) : Option String :=
  match firstOccurrenceCI term text with
  | none => none
  | some i =>
    let wstart := if 50 ≤ i then i - 50 else 0
    let wstop := min text.length (i + term.length + 50)
    let window := (text.data.drop wstart).take (wstop - wstart)
    let w1 := if wstart > 0 then "...".data ++ window else window
    let w2 := if wstop < text.length then w1 ++ "...".data else w1
    some (String.mk (wrapEveryCI term.data w2))

/-- C3: on a non-empty field containing a non-empty keyword
case-insensitively, the produced fragment is exactly the spec's construction
(first occurrence, clipped ±50 window, ellipsis markers, every occurrence
wrapped), for any `max_length`. -/
theorem highlight_fragment_as_specified (text term : String) (ml : Nat)
    (h1 : text ≠ "") (h2 : term ≠ "") (h3 : containsCI text term = true) :
    some (highlight_text text term ml) = highlightFragmentSpec text term := by
  have hterm : term.data ≠ [] := by
    intro hc
    apply h2
    cases term with
    | mk l =>
      simp only at hc
      rw [hc]
  obtain ⟨s, hs⟩ := containsCI_findCI h3
  have e1 : text.isEmpty = false := by
    rw [Bool.eq_false_iff]
    intro hcon
    exact h1 ((String.isEmpty_iff text).mp hcon)
  have e2 : term.isEmpty = false := by
    rw [Bool.eq_false_iff]
    intro hcon
    exact h2 ((String.isEmpty_iff term).mp hcon)
  have hw : (if 50 ≤ s then s - 50 else 0) = s - 50 := by
    split
    · rfl
    · omega
  simp only [highlight_text, e1, e2, Bool.or_self, Bool.false_eq_true, if_false, hs,
    highlightFragmentSpec, firstOccurrenceCI_eq term text hterm, hw]
  cases htd : term.data with
  | nil => exact absurd htd hterm
  | cons q ps =>
    exact congrArg (fun l => some (String.mk l)) (markSub_eq_wrap q ps _ _ (Nat.le_refl _))

/-- Witness for C3 at the spec's own example inputs. -/
theorem highlight_fragment_as_specified_witness :
    some (highlight_text "Hello World" "hello" 100) =
      highlightFragmentSpec "Hello World" "hello" :=
  highlight_fragment_as_specified "Hello World" "hello" 100 (by decide) (by decide) (by decide)

/-- Containment holds exactly when some suffix starts with the needle. -/
theorem isSubL_iff_drop (p : List Char) : ∀ l : List Char,
    isSubL p l = true ↔ ∃ i, p.isPrefixOf (l.drop i) = true := by
  intro l
  induction l with
  | nil => cases p <;> simp [isSubL, List.isPrefixOf, List.drop_nil]
  | cons c t ih =>
    simp only [isSubL, Bool.or_eq_true]
    constructor
    · rintro (h | h)
      · exact ⟨0, h⟩
      · obtain ⟨i, hi⟩ := ih.mp h
        exact ⟨i + 1, by simpa using hi⟩
    · rintro ⟨i, hi⟩
      cases i with
      | zero => exact Or.inl (by simpa using hi)
      | succ n => exact Or.inr (ih.mpr ⟨n, by simpa using hi⟩)

/-- Containment is preserved by prepending characters. -/
theorem isSubL_append_left (p : List Char) : ∀ (a w : List Char),
    isSubL p w = true → isSubL p (a ++ w) = true := by
  intro a
  induction a with
  | nil => intro w h; simpa using h
  | cons x xs ih =>
    intro w h
    simp only [List.cons_append, isSubL, Bool.or_eq_true]
    exact Or.inr (ih w h)

/-- Containment is preserved by appending characters. -/
theorem isSubL_append_right (p : List Char) : ∀ (w b : List Char),
    isSubL p w = true → isSubL p (w ++ b) = true := by
  intro w
  induction w with
  | nil =>
    intro b h
    simp only [isSubL] at h
    have hp : p = [] := by simpa using h
    subst hp
    cases b with
    | nil => simp [isSubL]
    | cons y ys => simp [isSubL, List.isPrefixOf]
  | cons x xs ih =>
    intro b h
    simp only [isSubL, Bool.or_eq_true, List.cons_append] at h ⊢
    rcases h with h | h
    · left
      rw [List.isPrefixOf_iff_prefix] at h ⊢
      refine h.trans ?_
      have := List.prefix_append (x :: xs) b
      simpa using this
    · exact Or.inr (ih b h)

/-- Whenever the needle occurs case-insensitively in the scanned text, the
substitution output decomposes around a marked occurrence whose text is
case-insensitively the needle. -/
theorem markSub_decomp (q : Char) (ps : List Char) (l : List Char)
    (h : isSubL (lowerL (q :: ps)) (lowerL l) = true) :
    ∃ pre mid post : List Char,
      markSub (q :: ps) l = pre ++ mOpen ++ mid ++ mClose ++ post ∧
      lowerL mid = lowerL (q :: ps) ∧ mid ≠ [] := by
  have hj : (findCI (q :: ps) l).isSome = true := by
    rw [findCI, ← isSubL_iff_findSub]
    exact h
  obtain ⟨j, hjv⟩ := Option.isSome_iff_exists.mp hj
  have hpre := findSub_matches_at (show findSub (lowerL (q :: ps)) (lowerL l) = some j from hjv)
  rw [List.isPrefixOf_iff_prefix] at hpre
  have htake := List.prefix_iff_eq_take.mp hpre
  have hlen : (lowerL (q :: ps)).length = ps.length + 1 := by simp [lowerL]
  rw [hlen] at htake
  have hmid : lowerL ((l.drop j).take (ps.length + 1)) = lowerL (q :: ps) := by
    rw [show lowerL ((l.drop j).take (ps.length + 1)) =
        ((lowerL l).drop j).take (ps.length + 1) from by
      simp only [lowerL, List.map_take, List.map_drop]]
    exact htake.symm
  refine ⟨l.take j, (l.drop j).take (ps.length + 1),
    wrapEveryCI (q :: ps) ((l.drop j).drop (ps.length + 1)), ?_, hmid, ?_⟩
  · rw [markSub_eq_wrap q ps l.length l (Nat.le_refl _), wrapEveryCI_some q ps l j hjv]
  · intro hc
    rw [hc] at hmid
    simp [lowerL] at hmid

/-- Every fragment actually produced by `highlight_text` on a field containing
the non-empty keyword case-insensitively carries a marked occurrence. -/
theorem highlight_text_has_mark (text term : String) (ml : Nat)
    (h2 : term ≠ "") (h3 : containsCI text term = true) :
    ∃ pre mid post : List Char,
      (highlight_text text term ml).data = pre ++ mOpen ++ mid ++ mClose ++ post ∧
      lowerL mid = lowerL term.data ∧ mid ≠ [] := by
  have hterm : term.data ≠ [] := by
    intro hc
    apply h2
    cases term with
    | mk l =>
      simp only at hc
      rw [hc]
  have h1 : text ≠ "" := by
    intro hc
    subst hc
    rw [containsCI] at h3
    have hne : lowerL term.data ≠ [] := by
      cases htd : term.data with
      | nil => exact absurd htd hterm
      | cons a as => simp [lowerL]
    cases htd : lowerL term.data with
    | nil => exact absurd htd hne
    | cons a as =>
      rw [htd] at h3
      simp [isSubL, lowerL] at h3
  have e1 : text.isEmpty = false := by
    rw [Bool.eq_false_iff]
    intro hcon
    exact h1 ((String.isEmpty_iff text).mp hcon)
  have e2 : term.isEmpty = false := by
    rw [Bool.eq_false_iff]
    intro hcon
    exact h2 ((String.isEmpty_iff term).mp hcon)
  obtain ⟨s, hs⟩ := containsCI_findCI h3
  have hs' : findSub (lowerL term.data) (lowerL text.data) = some s := hs
  have hbound := findSub_bound hs'
  have hlenterm : (lowerL term.data).length = term.length := by
    simp only [lowerL, List.length_map]
    rfl
  have hlentext : (lowerL text.data).length = text.length := by
    simp only [lowerL, List.length_map]
    rfl
  rw [hlenterm, hlentext] at hbound
  have hstople : s + term.length ≤ min text.length (s + term.length + 50) :=
    le_min hbound (by omega)
  have hcore : isSubL (lowerL term.data)
      (lowerL ((text.data.drop (s - 50)).take
        (min text.length (s + term.length + 50) - (s - 50)))) = true := by
    rw [isSubL_iff_drop]
    refine ⟨s - (s - 50), ?_⟩
    rw [show lowerL ((text.data.drop (s - 50)).take
          (min text.length (s + term.length + 50) - (s - 50))) =
        ((lowerL text.data).drop (s - 50)).take
          (min text.length (s + term.length + 50) - (s - 50)) from by
      simp only [lowerL, List.map_take, List.map_drop]]
    rw [List.drop_take, List.drop_drop]
    rw [show s - 50 + (s - (s - 50)) = s from by omega]
    rw [show min text.length (s + term.length + 50) - (s - 50) - (s - (s - 50)) =
        min text.length (s + term.length + 50) - s from by omega]
    rw [List.isPrefixOf_iff_prefix, List.prefix_take_iff]
    refine ⟨List.isPrefixOf_iff_prefix.mp (findSub_matches_at hs'), ?_⟩
    rw [hlenterm]
    omega
  have hsnip : isSubL (lowerL term.data)
      (lowerL (if min text.length (s + term.length + 50) < text.length then
        (if s - 50 > 0 then
          "...".data ++ ((text.data.drop (s - 50)).take
            (min text.length (s + term.length + 50) - (s - 50)))
        else
          (text.data.drop (s - 50)).take
            (min text.length (s + term.length + 50) - (s - 50))) ++ "...".data
      else
        if s - 50 > 0 then
          "...".data ++ ((text.data.drop (s - 50)).take
            (min text.length (s + term.length + 50) - (s - 50)))
        else
          (text.data.drop (s - 50)).take
            (min text.length (s + term.length + 50) - (s - 50)))) = true := by
    have hmid : isSubL (lowerL term.data)
        (lowerL (if s - 50 > 0 then
          "...".data ++ ((text.data.drop (s - 50)).take
            (min text.length (s + term.length + 50) - (s - 50)))
        else
          (text.data.drop (s - 50)).take
            (min text.length (s + term.length + 50) - (s - 50)))) = true := by
      by_cases hc : s - 50 > 0
      · rw [if_pos hc, show lowerL ("...".data ++ ((text.data.drop (s - 50)).take
            (min text.length (s + term.length + 50) - (s - 50)))) =
            lowerL "...".data ++ lowerL ((text.data.drop (s - 50)).take
              (min text.length (s + term.length + 50) - (s - 50))) from by
          simp only [lowerL, List.map_append]]
        exact isSubL_append_left _ _ _ hcore
      · rw [if_neg hc]
        exact hcore
    by_cases hc2 : min text.length (s + term.length + 50) < text.length
    · rw [if_pos hc2, show lowerL ((if s - 50 > 0 then
          "...".data ++ ((text.data.drop (s - 50)).take
            (min text.length (s + term.length + 50) - (s - 50)))
        else
          (text.data.drop (s - 50)).take
            (min text.length (s + term.length + 50) - (s - 50))) ++ "...".data) =
          lowerL (if s - 50 > 0 then
            "...".data ++ ((text.data.drop (s - 50)).take
              (min text.length (s + term.length + 50) - (s - 50)))
          else
            (text.data.drop (s - 50)).take
              (min text.length (s + term.length + 50) - (s - 50))) ++ lowerL "...".data
        from by simp only [lowerL, List.map_append]]
      exact isSubL_append_right _ _ _ hmid
    · rw [if_neg hc2]
      exact hmid
  simp only [highlight_text, e1, e2, Bool.or_self, Bool.false_eq_true, if_false, hs]
  cases htd : term.data with
  | nil => exact absurd htd hterm
  | cons q ps =>
    rw [htd] at hsnip
    exact markSub_decomp q ps _ hsnip

/-- C10: every fragment the highlight generator produces for a field contains
at least one keyword occurrence wrapped in the markers (the wrapped text being
the keyword up to case); and whenever the case-insensitive containment trigger
holds, the regex scan finds a match, so the no-match fallback branch of the
snippet builder is unreachable under the trigger precondition. -/
theorem generated_fragment_contains_mark (d : Document) (kw : String) (hkw : kw ≠ "") :
    (∀ frag : String,
      ((generate_highlights d kw).title = some frag ∨
       (generate_highlights d kw).excerpt = some frag ∨
       (generate_highlights d kw).content_preview = some frag) →
      ∃ pre mid post : List Char,
        frag.data = pre ++ mOpen ++ mid ++ mClose ++ post ∧
        lowerL mid = lowerL kw.data ∧ mid ≠ []) ∧
    (∀ text : String, containsCI text kw = true →
      (findCI kw.data text.data).isSome = true) := by
  constructor
  · intro frag hfrag
    rcases hfrag with hf | hf | hf
    · by_cases hc : (!d.title.isEmpty && containsCI d.title kw) = true
      · simp only [generate_highlights, hc, if_true] at hf
        rw [Bool.and_eq_true] at hc
        obtain ⟨hne, hci⟩ := hc
        obtain ⟨pre, mid, post, hdec, hlow, hmid⟩ :=
          highlight_text_has_mark d.title kw 100 hkw hci
        rw [Option.some.injEq] at hf
        rw [← hf]
        exact ⟨pre, mid, post, hdec, hlow, hmid⟩
      · simp [generate_highlights, hc] at hf
    · cases hx : d.excerpt with
      | none => simp [generate_highlights, hx] at hf
      | some ex =>
        by_cases hc : (!ex.isEmpty && containsCI ex kw) = true
        · simp only [generate_highlights, hx, hc, if_true] at hf
          rw [Bool.and_eq_true] at hc
          obtain ⟨hne, hci⟩ := hc
          obtain ⟨pre, mid, post, hdec, hlow, hmid⟩ :=
            highlight_text_has_mark ex kw 200 hkw hci
          rw [Option.some.injEq] at hf
          rw [← hf]
          exact ⟨pre, mid, post, hdec, hlow, hmid⟩
        · simp [generate_highlights, hx, hc] at hf
    · cases hx : d.content_text with
      | none => simp [generate_highlights, hx] at hf
      | some ct =>
        by_cases hc : (!ct.isEmpty && containsCI ct kw) = true
        · simp only [generate_highlights, hx, hc, if_true] at hf
          rw [Bool.and_eq_true] at hc
          obtain ⟨hne, hci⟩ := hc
          obtain ⟨pre, mid, post, hdec, hlow, hmid⟩ :=
            highlight_text_has_mark ct kw 300 hkw hci
          rw [Option.some.injEq] at hf
          rw [← hf]
          exact ⟨pre, mid, post, hdec, hlow, hmid⟩
        · simp [generate_highlights, hx, hc] at hf
  · intro text h
    obtain ⟨s, hs⟩ := containsCI_findCI h
    rw [hs]
    rfl

/-- Witness for C10 at the demo document's title fragment. -/
theorem generated_fragment_contains_mark_witness :
    ∃ pre mid post : List Char,
      ("<mark>hello</mark> world" : String).data = pre ++ mOpen ++ mid ++ mClose ++ post ∧
      lowerL mid = lowerL ("hello" : String).data ∧ mid ≠ [] :=
  (generated_fragment_contains_mark dHello "hello" (by decide)).1
    "<mark>hello</mark> world" (Or.inl (by decide))
